import Mathlib

/-!
Shallow embedding of the scbake core: path utilities (mirroring Go's
`path/filepath` on slash-separated paths), an abstract filesystem,
the filesystem transaction manager (`internal/filesystem/transaction`),
the priority model (`internal/types/priority.go`), the task variants
(`pkg/tasks`) and the execution engine (`internal/core/executor.go`).
Machine integers are modelled as `Int` with explicit two's-complement
wrap where overflow could matter.
-/

namespace Scbake

/-- Character-list splitter used to decompose a slash-separated path. -/
def splitCharAux : List Char → List Char → List (List Char)
  | [], acc => [acc.reverse]
  | c :: rest, acc =>
      if c = '/' then acc.reverse :: splitCharAux rest []
      else splitCharAux rest (c :: acc)

/-- Path components of a string path: split on '/' and drop empty parts. -/
def splitPath (p : String) : List String :=
  ((splitCharAux p.data []).map (fun l => String.mk l)).filter (fun c => c ≠ "")

/-- Whether a string path is absolute (begins with '/'), as in Go `filepath.IsAbs`. -/
def isAbsPath (p : String) : Bool :=
  match p.data with
  | [] => false
  | c :: _ => c = '/'

/-- Byte-level string prefix test, the semantics of Go `strings.HasPrefix(s, pre)`. -/
def strHasPref (s pre : String) : Bool :=
  pre.data.isPrefixOf s.data

/-- Core of Go `filepath.Clean` on a component list: drop "." parts and resolve
".." parts (a ".." at the start of a rooted path is discarded). `acc` holds the
already-processed components in reverse. -/
def cleanCore (rooted : Bool) : List String → List String → List String
  | acc, [] => acc.reverse
  | acc, c :: rest =>
      if c = "." then cleanCore rooted acc rest
      else if c = ".." then
        match acc with
        | [] => if rooted then cleanCore rooted [] rest
                else cleanCore rooted [".."] rest
        | a :: as =>
            if a = ".." then cleanCore rooted (".." :: a :: as) rest
            else cleanCore rooted as rest
      else cleanCore rooted (c :: acc) rest

/-- Render a component list back to a string path. -/
def joinComps (rooted : Bool) (comps : List String) : String :=
  match comps with
  | [] => if rooted then "/" else "."
  | c :: rest => (if rooted then "/" else "") ++ rest.foldl (fun acc x => acc ++ "/" ++ x) c

/-- Go `filepath.Clean` for slash-separated paths. -/
def goClean (p : String) : String :=
  joinComps (isAbsPath p) (cleanCore (isAbsPath p) [] (splitPath p))

/-- Go `filepath.Join` of two non-empty elements: `Clean(a + "/" + b)`. -/
def goJoin (a b : String) : String :=
  goClean (a ++ "/" ++ b)

/-- Go `filepath.Abs`: clean an absolute path, or join a relative one onto the
current working directory. -/
def goAbs (cwd p : String) : String :=
  if isAbsPath p then goClean p else goJoin cwd p

/-- Strip the longest common component run of two component lists. -/
def stripCommon : List String → List String → (List String × List String)
  | a :: as, b :: bs =>
      if a = b then stripCommon as bs else (a :: as, b :: bs)
  | as, bs => (as, bs)

/-- Go `filepath.Rel(base, target)` on two absolute paths: after removing the
common prefix, one ".." per remaining base component followed by the remaining
target components ("." when nothing remains). -/
def goRel (base target : String) : String :=
  let s := stripCommon (splitPath (goClean base)) (splitPath (goClean target))
  let comps := List.replicate s.1.length ".." ++ s.2
  match comps with
  | [] => "."
  | c :: rest => rest.foldl (fun acc x => acc ++ "/" ++ x) c

/-- Go `filepath.Base` for the paths the manager handles. -/
def baseName (p : String) : String :=
  match (splitPath p).getLast? with
  | some b => b
  | none => if isAbsPath p then "/" else "."

/-- Go `strings.ReplaceAll(s, "/", "_")`. -/
def replaceSlash (s : String) : String :=
  String.mk (s.data.map (fun c => if c = '/' then '_' else c))

/-! ### Abstract filesystem

Disk state is a finite association of cleaned absolute paths to nodes.
Operations mirror the `os` calls the transaction manager and the tasks use. -/

instance {ε α : Type} [DecidableEq ε] [DecidableEq α] : DecidableEq (Except ε α) :=
  fun x y =>
    match x, y with
    | Except.ok a, Except.ok b =>
        if h : a = b then isTrue (by rw [h]) else isFalse (fun he => by cases he; exact h rfl)
    | Except.error a, Except.error b =>
        if h : a = b then isTrue (by rw [h]) else isFalse (fun he => by cases he; exact h rfl)
    | Except.ok _, Except.error _ => isFalse (fun he => by cases he)
    | Except.error _, Except.ok _ => isFalse (fun he => by cases he)

/-- A filesystem node: a regular file with content and mode, or a directory. -/
inductive FNode where
  | file (data : String) (mode : Nat)
  | dir
  deriving DecidableEq

/-- Filesystem: association list from absolute path to node. -/
def Fs := List (String × FNode)

instance : DecidableEq Fs := by unfold Fs; infer_instance

/-- Result of `os.Stat`: the node at a path, if any. -/
def statFs (fs : Fs) (p : String) : Option FNode :=
  (fs.find? (fun e => e.1 = p)).map (fun e => e.2)

/-- Insert or replace the node at a path. -/
def fsInsert (p : String) (n : FNode) (fs : Fs) : Fs :=
  (p, n) :: fs.filter (fun e => e.1 ≠ p)

/-- Go `os.RemoveAll`: delete the path and everything below it. -/
def removeAllFs (p : String) (fs : Fs) : Fs :=
  fs.filter (fun e => ¬ (e.1 = p ∨ strHasPref e.1 (p ++ "/")))

/-- Go `os.Remove` on a directory, best-effort: succeeds only when the
directory is empty; otherwise the filesystem is unchanged. -/
def removeIfEmptyDir (p : String) (fs : Fs) : Fs :=
  if fs.any (fun e => strHasPref e.1 (p ++ "/")) then fs
  else fs.filter (fun e => e.1 ≠ p)

/-- Ancestor chain of an absolute path, shortest first, ending with the path
itself. -/
def ancestorPaths (p : String) : List String :=
  let comps := splitPath p
  (List.range comps.length).map (fun i => joinComps true (comps.take (i + 1)))

/-- Go `os.MkdirAll`: create every missing directory on the chain; fail if some
ancestor exists as a regular file. The mode plays no further role in the model. -/
def mkdirAll (p : String) (fs : Fs) : Except String Fs :=
  (ancestorPaths p).foldlM
    (fun acc q =>
      match statFs acc q with
      | none => Except.ok (fsInsert q FNode.dir acc)
      | some FNode.dir => Except.ok acc
      | some (FNode.file _ _) => Except.error ("mkdir " ++ q ++ ": not a directory"))
    fs

/-- Write (create or truncate) a regular file. -/
def writeFile (p : String) (data : String) (mode : Nat) (fs : Fs) : Fs :=
  fsInsert p (FNode.file data mode) fs

/-- Embedding of `transaction.copyFile` (src/unnamed/part_037): copy the
content of `src` to `dst` and chmod `dst` to `mode` explicitly. -/
def copyFile (src dst : String) (mode : Nat) (fs : Fs) : Except String Fs :=
  match statFs fs (goClean src) with
  | some (FNode.file d _) => Except.ok (writeFile (goClean dst) d mode fs)
  | _ => Except.error ("copy failed: " ++ src)

/-! ### Transaction manager (`internal/filesystem/transaction`) -/

/-- Embedding of `backupEntry`: metadata required to restore a file. -/
structure BackupEntry where
  tempPath : String
  mode : Nat
  deriving DecidableEq

/-- Embedding of `transaction.Manager`. The Go `backups` map is modelled as an
association list with unique keys; `tempDir = ""` is the unset sentinel, as in
the source. -/
structure Manager where
  rootPath : String
  tempDir : String
  backups : List (String × BackupEntry)
  created : List String
  deriving DecidableEq

/-- Ambient execution environment: the process working directory (consumed by
`filepath.Abs`) and the `time.Now().UnixNano()` value consumed by
`ensureTempDir`. -/
structure Env where
  cwd : String
  tick : Nat

/-- Embedding of `transaction.New`: a fresh manager scoped to the given root. -/
def Manager.New (env : Env) (rootPath : String) : Manager :=
  { rootPath := goAbs env.cwd rootPath, tempDir := "", backups := [], created := [] }

/-- Embedding of `Manager.resolveAndValidate`: make the path absolute and fail
when its form relative to the root begins with "..". -/
def resolveAndValidate (root : String) (env : Env) (path : String) :
    Except String String :=
  if strHasPref (goRel root (goAbs env.cwd path)) ".." ∨ goRel root (goAbs env.cwd path) = ".." then
    Except.error ("security violation: attempting to track path '" ++ goAbs env.cwd path ++
      "' outside project root '" ++ root ++ "'")
  else
    Except.ok (goAbs env.cwd path)

/-- Embedding of `Manager.alreadyTracked`. -/
def Manager.alreadyTracked (m : Manager) (absPath : String) : Bool :=
  m.backups.any (fun e => e.1 = absPath) || m.created.contains absPath

/-- Embedding of `Manager.ensureTempDir`: lazily create
`<root>/.scbake/tmp/tx-<nanos>`. -/
def Manager.ensureTempDir (m : Manager) (env : Env) (fs : Fs) :
    Except String (Manager × Fs) :=
  if m.tempDir ≠ "" then Except.ok (m, fs)
  else
    match mkdirAll (goJoin (goJoin m.rootPath ".scbake/tmp") ("tx-" ++ Nat.repr env.tick)) fs with
    | Except.error e =>
        Except.error ("failed to create temp dir " ++
          goJoin (goJoin m.rootPath ".scbake/tmp") ("tx-" ++ Nat.repr env.tick) ++ ": " ++ e)
    | Except.ok fs1 =>
        Except.ok ({ m with
          tempDir := goJoin (goJoin m.rootPath ".scbake/tmp") ("tx-" ++ Nat.repr env.tick) }, fs1)

/-- Embedding of `Manager.backupFile`: ensure the temp dir, copy the file to a
`<ordinal>_<basename>` backup name, and record the entry. -/
def Manager.backupFile (m : Manager) (env : Env) (fs : Fs) (absPath : String)
    (mode : Nat) : Manager × Fs × Except String Unit :=
  match m.ensureTempDir env fs with
  | Except.error e => (m, fs, Except.error e)
  | Except.ok (m1, fs1) =>
    match copyFile absPath
        (goJoin m1.tempDir (Nat.repr m1.backups.length ++ "_" ++ replaceSlash (baseName absPath)))
        mode fs1 with
    | Except.error e => (m1, fs1, Except.error ("failed to backup file " ++ absPath ++ ": " ++ e))
    | Except.ok fs2 =>
        ({ m1 with backups := m1.backups ++
            [(absPath, ⟨goJoin m1.tempDir (Nat.repr m1.backups.length ++ "_" ++
              replaceSlash (baseName absPath)), mode⟩)] }, fs2,
          Except.ok ())

/-- Embedding of `Manager.Track` (src/internal/core/executor.go, transaction
section): validate the path, short-circuit on duplicates, record a creation
for missing paths, skip directories, and back up regular files. -/
def Manager.Track (m : Manager) (env : Env) (fs : Fs) (path : String) :
    Manager × Fs × Except String Unit :=
  match resolveAndValidate m.rootPath env path with
  | Except.error e => (m, fs, Except.error e)
  | Except.ok absPath =>
    if m.alreadyTracked absPath then (m, fs, Except.ok ())
    else
      match statFs fs absPath with
      | none => ({ m with created := m.created ++ [absPath] }, fs, Except.ok ())
      | some FNode.dir => (m, fs, Except.ok ())
      | some (FNode.file _ mode) => m.backupFile env fs absPath mode

/-- Embedding of `Manager.cleanupStructure`: best-effort prune of
`<root>/.scbake/tmp` then `<root>/.scbake`, each only when empty. -/
def Manager.cleanupStructure (m : Manager) (fs : Fs) : Fs :=
  removeIfEmptyDir (goJoin m.rootPath ".scbake")
    (removeIfEmptyDir (goJoin (goJoin m.rootPath ".scbake") "tmp") fs)

/-- Embedding of `Manager.resetState`. -/
def Manager.resetState (m : Manager) : Manager :=
  { m with tempDir := "", backups := [], created := [] }

/-- Embedding of `Manager.Commit`: an early return when `tempDir` was never
materialized (no reset happens on that path in the source), otherwise remove
the temp tree, prune scaffolding and reset. -/
def Manager.Commit (m : Manager) (fs : Fs) : Manager × Fs × Except String Unit :=
  if m.tempDir = "" then (m, fs, Except.ok ())
  else
    let fs1 := removeAllFs m.tempDir fs
    let fs2 := m.cleanupStructure fs1
    (m.resetState, fs2, Except.ok ())

/-- Embedding of `Manager.Rollback` (restore.go): delete created paths in
reverse order (only those that exist), restore every backup, then clean up and
reset state only when a temp dir exists; collected errors are aggregated. -/
def Manager.Rollback (m : Manager) (fs : Fs) : Manager × Fs × Except String Unit :=
  let fs1 := m.created.reverse.foldl
    (fun acc p => if (statFs acc p).isSome then removeAllFs p acc else acc) fs
  let step2 := m.backups.foldl
    (fun (acc : Fs × List String) e =>
      match copyFile e.2.tempPath e.1 e.2.mode acc.1 with
      | Except.ok fsNext => (fsNext, acc.2)
      | Except.error err => (acc.1, acc.2 ++ ["failed to restore " ++ e.1 ++ ": " ++ err]))
    (fs1, ([] : List String))
  let afterCleanup :=
    if m.tempDir ≠ "" then
      (m.resetState, m.cleanupStructure (removeAllFs m.tempDir step2.1))
    else (m, step2.1)
  if step2.2 ≠ [] then
    (afterCleanup.1, afterCleanup.2, Except.error "rollback completed with errors")
  else (afterCleanup.1, afterCleanup.2, Except.ok ())

/-! ### Priority model (`internal/types/priority.go`)

`Priority` is a Go `int` (64-bit); the increment in `Next` is modelled with an
explicit two's-complement wrap so overflow is not silently idealized away. -/

/-- Two's-complement increment of a 64-bit signed integer. -/
def wrapInc (x : Int) : Int :=
  (x + 1 + 2 ^ 63) % 2 ^ 64 - 2 ^ 63

/-- Embedding of `types.PrioritySequence` (the mutex serializes calls and has
no sequential content). -/
structure PrioritySequence where
  current : Int
  max : Int
  deriving DecidableEq

/-- Embedding of `types.NewPrioritySequence`; the Go constructor panics on an
invalid band, modelled as `none`. -/
def NewPrioritySequence (base maxPrio : Int) : Option PrioritySequence :=
  if maxPrio ≠ 0 ∧ maxPrio < base then none
  else some { current := base, max := maxPrio }

/-- Embedding of `PrioritySequence.Next`: fail when `current > max` (with
`max ≠ 0`), otherwise return `current` and increment. -/
def PrioritySequence.Next (s : PrioritySequence) :
    PrioritySequence × Except String Int :=
  if s.max ≠ 0 ∧ s.current > s.max then
    (s, Except.error ("priority sequence exceeded max: " ++ toString s.current ++
      " > " ++ toString s.max))
  else
    ({ s with current := wrapInc s.current }, Except.ok s.current)

/-- State of the sequence after `n` calls to `Next`. -/
def iterNext (s : PrioritySequence) : Nat → PrioritySequence
  | 0 => s
  | n + 1 => (iterNext s n).Next.1

/-! ### Manifest data (`internal/types/manifest.go`), as far as the tasks
consume it -/

/-- Embedding of `types.Project`. -/
structure Project where
  name : String
  path : String
  language : String
  templates : List String
  deriving DecidableEq

/-- Embedding of `types.Template`. -/
structure TemplateRef where
  name : String
  path : String
  deriving DecidableEq

/-- Embedding of `types.Manifest`. -/
structure Manifest where
  version : String
  projects : List Project
  templates : List TemplateRef
  deriving DecidableEq

/-! ### Task context and task variants (`internal/types/plan.go`, `pkg/tasks`) -/

/-- Embedding of `types.TaskContext`. The `Tx` pointer is a flag here; the
manager state itself is threaded through the world a task acts on. -/
structure TaskContext where
  targetPath : String
  manifest : Manifest
  dryRun : Bool
  force : Bool
  txPresent : Bool

/-- Mutable world a task acts on: the disk and the shared transaction
manager's state. -/
structure World where
  fs : Fs
  mgr : Manager
  deriving DecidableEq

/-- Embedding of `tasks.CreateDirTask` (pkg/tasks/create_directory.go). -/
structure CreateDirTask where
  path : String
  desc : String
  taskPrio : Int

/-- Embedding of `CreateDirTask.Execute`: track when not in dry-run and a
transaction is present, then unconditionally create the directory chain. -/
def CreateDirTask.Execute (t : CreateDirTask) (env : Env) (tc : TaskContext)
    (w : World) : World × Except String Unit :=
  let tracked : World × Except String Unit :=
    if ¬ tc.dryRun ∧ tc.txPresent then
      let r := w.mgr.Track env w.fs t.path
      ({ fs := r.2.1, mgr := r.1 },
        match r.2.2 with
        | Except.error e =>
            Except.error ("failed to track directory " ++ t.path ++ ": " ++ e)
        | Except.ok _ => Except.ok ())
    else (w, Except.ok ())
  match tracked.2 with
  | Except.error e => (tracked.1, Except.error e)
  | Except.ok _ =>
    match mkdirAll (goAbs env.cwd t.path) tracked.1.fs with
    | Except.error e =>
        (tracked.1, Except.error ("failed to create directory " ++ t.path ++ ": " ++ e))
    | Except.ok fs1 => ({ tracked.1 with fs := fs1 }, Except.ok ())

/-- External `text/template` library: whether a source parses, and what a
parsed template renders to against a manifest. Opaque to the core, hence a
parameter of the embedding. -/
structure TplLib where
  parseOk : String → Bool
  render : String → Manifest → String

/-- Embedding of `tasks.CreateTemplateTask` (pkg/tasks/create_template.go).
The embedded read-only bundle is an association list from template path to
content. -/
structure CreateTemplateTask where
  templateFS : List (String × String)
  templatePath : String
  outputPath : String
  desc : String
  taskPrio : Int

/-- Embedding of `fs.ReadFile` on the embedded bundle. -/
def readEmbedded (bundle : List (String × String)) (p : String) : Option String :=
  (bundle.find? (fun e => e.1 = p)).map (fun e => e.2)

/-- Error kinds produced by `CreateTemplateTask.Execute`; each constructor
stands for one distinct `fmt.Errorf` format of the source. -/
inductive TplErr where
  | readErr (templatePath : String)
  | parseErr (templatePath : String)
  | pathEscape (output target : String)
  | mkdirErr (e : String)
  | preexists (finalPath : String)
  | createErr (finalPath : String)
  | renderErr (templatePath : String)
  deriving DecidableEq

/-- Embedding of `tasks.checkFilePreconditions`: the string-prefix path-safety
check, directory creation, then the existence check honoring `force`. The
returned filesystem reflects the `MkdirAll` side effect. -/
def checkFilePreconditions (finalPath output target : String) (force : Bool)
    (fs : Fs) : Fs × Except TplErr Unit :=
  if ¬ strHasPref finalPath target then
    (fs, Except.error (TplErr.pathEscape output target))
  else
    match mkdirAll (joinComps true ((splitPath finalPath).dropLast)) fs with
    | Except.error e => (fs, Except.error (TplErr.mkdirErr e))
    | Except.ok fs1 =>
      if ¬ force then
        match statFs fs1 finalPath with
        | some _ => (fs1, Except.error (TplErr.preexists finalPath))
        | none => (fs1, Except.ok ())
      else (fs1, Except.ok ())

/-- Embedding of `os.Create`: fails on an existing directory, otherwise
creates or truncates the file (mode 0666 before umask). -/
def osCreate (p : String) (fs : Fs) : Except TplErr Fs :=
  match statFs fs p with
  | some FNode.dir => Except.error (TplErr.createErr p)
  | _ => Except.ok (writeFile p "" 438 fs)

/-- Embedding of `CreateTemplateTask.Execute` (pkg/tasks/create_template.go):
dry-run short-circuit, template read and parse, final-path computation,
preconditions, file creation and rendering. The transaction manager in the
world is never consulted, as in the source. -/
def CreateTemplateTask.Execute (t : CreateTemplateTask) (lib : TplLib)
    (tc : TaskContext) (w : World) : World × Except TplErr Unit :=
  if tc.dryRun then (w, Except.ok ())
  else
    match readEmbedded t.templateFS t.templatePath with
    | none => (w, Except.error (TplErr.readErr t.templatePath))
    | some content =>
      if ¬ lib.parseOk content then
        (w, Except.error (TplErr.parseErr t.templatePath))
      else
        let finalPath := goJoin tc.targetPath (goClean t.outputPath)
        let pre := checkFilePreconditions finalPath t.outputPath tc.targetPath
          tc.force w.fs
        match pre.2 with
        | Except.error e => ({ w with fs := pre.1 }, Except.error e)
        | Except.ok _ =>
          match osCreate finalPath pre.1 with
          | Except.error e => ({ w with fs := pre.1 }, Except.error e)
          | Except.ok fs2 =>
              ({ w with fs := writeFile finalPath (lib.render content tc.manifest) 438 fs2 },
                Except.ok ())

/-! ### Execution engine (`internal/core/executor.go`) -/

/-- A plan entry as the engine sees it: the `types.Task` interface. -/
structure GTask where
  desc : String
  prio : Int
  run : TaskContext → World → World × Except String Unit

/-- Stable insertion of a task into an already-sorted suffix of the plan:
`x` goes before the first task whose priority is not smaller. All elements of
the target list stem from later plan positions, so ties keep insertion order. -/
def insertT (x : GTask) : List GTask → List GTask
  | [] => [x]
  | y :: ys => if x.prio ≤ y.prio then x :: y :: ys else y :: insertT x ys

/-- The permutation `sort.SliceStable` leaves in `plan.Tasks`: a stable sort
by ascending priority. -/
def sortTasks : List GTask → List GTask
  | [] => []
  | x :: xs => insertT x (sortTasks xs)

/-- Sequential task loop of `core.Execute`: run each task, stop and wrap on
the first failure. -/
def runTasks (tc : TaskContext) : List GTask → World → World × Except String Unit
  | [], w => (w, Except.ok ())
  | t :: ts, w =>
    let r := t.run tc w
    match r.2 with
    | Except.error e =>
        (r.1, Except.error ("task failed (" ++ t.desc ++ "): " ++ e))
    | Except.ok _ => runTasks tc ts r.1

/-- Embedding of `core.Execute` (src/internal/core/executor.go): stable-sort
the caller's `plan.Tasks` in place by priority, then run the tasks in order.
The first component is the task slice as the caller observes it afterwards. -/
def Execute (plan : List GTask) (tc : TaskContext) (w : World) :
    List GTask × World × Except String Unit :=
  let sorted := sortTasks plan
  (sorted, runTasks tc sorted w)

end Scbake


/-! ### Concrete scenario data used by the theorems below -/

namespace Scbake

/-- Ambient environment for all concrete scenarios. -/
def exEnv : Env := { cwd := "/", tick := 7 }

/-- Fresh transaction manager for root `/r`. -/
def exM0 : Manager := Manager.New exEnv "/r"

/-- Disk holding only the project root `/r`. -/
def exFs0 : Fs := [("/r", FNode.dir)]

/-- Manager state after tracking the not-yet-existing `/r/f`. -/
def exM1 : Manager := (exM0.Track exEnv exFs0 "/r/f").1

/-- Disk after the tracked task wrote `/r/f`. -/
def exFs1 : Fs := writeFile "/r/f" "data" 384 exFs0

/-- Template library that always parses and renders the template verbatim. -/
def exLib : TplLib := { parseOk := fun _ => true, render := fun c _ => c }

/-- Empty manifest used as the render root. -/
def exMan : Manifest := { version := "1", projects := [], templates := [] }

/-- RenderTemplate task whose output path escapes to a prefix-sharing sibling. -/
def exTplTask : CreateTemplateTask :=
  { templateFS := [("x.tpl", "hello")], templatePath := "x.tpl",
    outputPath := "../t1-evil/x", desc := "render x", taskPrio := 1000 }

/-- Context targeting `/tmp/t1` with a live transaction. -/
def exTcEvil : TaskContext :=
  { targetPath := "/tmp/t1", manifest := exMan, dryRun := false, force := false,
    txPresent := true }

/-- World for the escape scenario. -/
def exWEvil : World :=
  { fs := [("/tmp", FNode.dir), ("/tmp/t1", FNode.dir)], mgr := Manager.New exEnv "/tmp/t1" }

/-- Well-behaved RenderTemplate task writing `out.txt` under the target. -/
def exTplOk : CreateTemplateTask :=
  { templateFS := [("x.tpl", "hello")], templatePath := "x.tpl",
    outputPath := "out.txt", desc := "render out", taskPrio := 1000 }

/-- Context targeting `/r` with a live transaction. -/
def exTcR : TaskContext :=
  { targetPath := "/r", manifest := exMan, dryRun := false, force := false,
    txPresent := true }

/-- World pairing the `/r` disk with the fresh manager. -/
def exWR : World := { fs := exFs0, mgr := exM0 }

/-- Directory-creation task for a directory that does not exist yet. -/
def exDirTask : CreateDirTask := { path := "/r/newdir", desc := "mk", taskPrio := 50 }

/-- Dry-run context without a transaction, as built by `RunApply` in dry-run. -/
def exTcDry : TaskContext :=
  { targetPath := "/r", manifest := exMan, dryRun := true, force := false,
    txPresent := false }

/-- World where the template's output file already exists. -/
def exWPre : World :=
  { fs := [("/r", FNode.dir), ("/r/out.txt", FNode.file "old" 438)], mgr := exM0 }

/-- The `/r` context with the `--force` flag set. -/
def exTcForce : TaskContext := { exTcR with force := true }

/-- One-task plan wrapping `exDirTask` behind the `types.Task` interface. -/
def exPlanDry : List GTask :=
  [{ desc := "mk", prio := 50, run := fun tc w => exDirTask.Execute exEnv tc w }]

end Scbake

/-! ### Claim theorems -/

namespace Scbake

/-- C1: the claim fails on the code. When no file was ever backed up, `Commit`
returns success without resetting the journal, so a subsequent `Rollback` is
not a no-op: here it deletes `/r/f` from disk even though the transaction had
committed. The scenario tracks the not-yet-existing `/r/f`, writes it,
commits successfully, then rolls back. -/
theorem commit_then_rollback_not_inert :
    (exM0.Track exEnv exFs0 "/r/f").2.2 = Except.ok () ∧
    (exM1.Commit exFs1).2.2 = Except.ok () ∧
    statFs (exM1.Commit exFs1).2.1 "/r/f" = some (FNode.file "data" 384) ∧
    statFs (((exM1.Commit exFs1).1).Rollback ((exM1.Commit exFs1).2.1)).2.1 "/r/f" = none ∧
    (((exM1.Commit exFs1).1).Rollback ((exM1.Commit exFs1).2.1)).2.2 = Except.ok () := by
  decide

/-- C2: the claim fails on the code. After the successful `Commit` of a
transaction whose temp dir was never materialized, the `created` list is not
reset: it still holds `/r/f`, and the temp-dir field and backups are only
empty because they always were. -/
theorem commit_without_tempdir_keeps_journal :
    (exM1.Commit exFs1).2.2 = Except.ok () ∧
    exM1.tempDir = "" ∧
    ((exM1.Commit exFs1).1).created = ["/r/f"] ∧
    (exM1.Commit exFs1).1 = exM1 := by
  decide

/-- C3 counterexample: with base 1 and ceiling 1 (a valid band with
`ceiling ≥ base ≠ 0`), the `(ceiling - base + 1)`-th call to `Next` is the
first call, and it succeeds returning 1 instead of failing as the claim
states; only the following call fails. -/
theorem prioritySequence_claim_counterexample :
    NewPrioritySequence 1 1 = some { current := 1, max := 1 } ∧
    (iterNext { current := 1, max := 1 } 0).Next.2 = Except.ok 1 ∧
    (iterNext { current := 1, max := 1 } 1).Next.2 =
      Except.error "priority sequence exceeded max: 2 > 1" := by
  decide

/-- C4: the claim fails on the code. `checkFilePreconditions` guards with a
string-prefix check, so for target `/tmp/t1` and output `../t1-evil/x` the
final path `/tmp/t1-evil/x` — which escapes the target, as its relative form
starts with ".." — passes the check, and the task succeeds and writes the
file outside the target instead of failing with a path-escape error. -/
theorem template_path_escape_not_caught :
    goJoin "/tmp/t1" (goClean "../t1-evil/x") = "/tmp/t1-evil/x" ∧
    strHasPref (goRel "/tmp/t1" "/tmp/t1-evil/x") ".." = true ∧
    strHasPref "/tmp/t1-evil/x" "/tmp/t1" = true ∧
    (exTplTask.Execute exLib exTcEvil exWEvil).2 = Except.ok () ∧
    statFs (exTplTask.Execute exLib exTcEvil exWEvil).1.fs "/tmp/t1-evil/x" =
      some (FNode.file "hello" 438) := by
  decide

/-- C5: the claim fails on the code. A successful non-dry-run
`CreateTemplateTask.Execute` with a transaction present writes the rendered
file but leaves the transaction manager exactly as it was: the final path
appears neither in `created` nor in `backups`, because the task never calls
`Track`. -/
theorem template_execute_does_not_track :
    (exTplOk.Execute exLib exTcR exWR).2 = Except.ok () ∧
    statFs (exTplOk.Execute exLib exTcR exWR).1.fs "/r/out.txt" =
      some (FNode.file "hello" 438) ∧
    (exTplOk.Execute exLib exTcR exWR).1.mgr = exWR.mgr ∧
    exWR.mgr.created = [] ∧ exWR.mgr.backups = [] := by
  decide

/-- C6: the claim fails on the code. Executing a plan containing a
`CreateDirTask` with `dry_run = true` (as `RunApply`'s dry-run branch does,
via the engine that runs each task body) creates the directory on disk:
`CreateDirTask.Execute` only guards the `Track` call with `dry_run`, not the
`MkdirAll`. -/
theorem dry_run_create_dir_mutates_disk :
    statFs exWR.fs "/r/newdir" = none ∧
    exTcDry.dryRun = true ∧
    (Execute exPlanDry exTcDry exWR).2.2 = Except.ok () ∧
    statFs (Execute exPlanDry exTcDry exWR).2.1.fs "/r/newdir" = some FNode.dir := by
  decide

end Scbake

namespace Scbake

/-- The two's-complement increment is the plain increment while no overflow
occurs. -/
theorem wrapInc_eq (x : Int) (h1 : -(2 ^ 63) ≤ x + 1) (h2 : x + 1 < 2 ^ 63) :
    wrapInc x = x + 1 := by
  unfold wrapInc
  have hlo : (0 : Int) ≤ x + 1 + 2 ^ 63 := by linarith
  have hhi : x + 1 + 2 ^ 63 < 2 ^ 64 := by
    have : (2 : Int) ^ 64 = 2 ^ 63 + 2 ^ 63 := by norm_num
    linarith
  rw [Int.emod_eq_of_lt hlo hhi]
  ring

/-- After `i` calls within an intact band the allocator state is
`current = base + i`. -/
theorem iterNext_state (b c : Int) (_hbc : b ≤ c)
    (hlo : -(2 ^ 63) ≤ b) (hhi : c + 1 < 2 ^ 63) :
    ∀ i : Nat, (i : Int) ≤ c - b + 1 →
      iterNext { current := b, max := c } i = { current := b + i, max := c } := by
  intro i
  induction i with
  | zero => intro _; simp [iterNext]
  | succ n ih =>
    intro hn
    have hn' : (n : Int) ≤ c - b + 1 := by
      have : (n : Int) ≤ (n : Int) + 1 := by linarith
      calc (n : Int) ≤ (n : Int) + 1 := this
        _ = ((n + 1 : Nat) : Int) := by push_cast; ring
        _ ≤ c - b + 1 := hn
    have hle : b + (n : Int) ≤ c := by
      have : ((n + 1 : Nat) : Int) = (n : Int) + 1 := by push_cast; ring
      rw [this] at hn
      linarith
    have hstep : (iterNext { current := b, max := c } n).Next.1 =
        { current := b + n + 1, max := c } := by
      rw [ih hn']
      unfold PrioritySequence.Next
      have hcond : ¬ (c ≠ 0 ∧ b + (n : Int) > c) := by
        intro hcon
        exact absurd hle (by linarith [hcon.2])
      simp only [hcond, if_false]
      have : wrapInc (b + (n : Int)) = b + n + 1 := by
        apply wrapInc_eq
        · have : (0 : Int) ≤ (n : Int) := Int.ofNat_nonneg n
          linarith
        · linarith
      simp [this]
    show (iterNext { current := b, max := c } n).Next.1 = _
    rw [hstep]
    have : b + ((n + 1 : Nat) : Int) = b + n + 1 := by push_cast; ring
    rw [this]

/-- C3 amended: for a band with non-zero ceiling `c ≥ b` (and the band away
from the 64-bit boundary, as every real band is), the calls numbered
1 through `c - b + 1` — indices `i = 0 .. c - b` — succeed returning
`b + i`, and the `(c - b + 2)`-th call (index `c - b + 1`) fails with the
band-exceeded error. -/
theorem prioritySequence_band_exhaustion (b c : Int) (hc : c ≠ 0) (hbc : b ≤ c)
    (hlo : -(2 ^ 63) ≤ b) (hhi : c + 1 < 2 ^ 63) :
    (∀ i : Nat, (i : Int) ≤ c - b →
        (iterNext { current := b, max := c } i).Next.2 = Except.ok (b + i)) ∧
    ((iterNext { current := b, max := c } ((c - b).toNat + 1)).Next.2).isOk = false := by
  constructor
  · intro i hi
    have hstate := iterNext_state b c hbc hlo hhi i (by linarith)
    rw [hstate]
    unfold PrioritySequence.Next
    have hcond : ¬ (c ≠ 0 ∧ b + (i : Int) > c) := by
      intro hcon
      have : b + (i : Int) ≤ c := by linarith
      exact absurd this (by linarith [hcon.2])
    simp [hcond]
  · have hcb : (0 : Int) ≤ c - b := by linarith
    have hcast : (((c - b).toNat + 1 : Nat) : Int) = c - b + 1 := by
      push_cast
      rw [Int.toNat_of_nonneg hcb]
    have hstate := iterNext_state b c hbc hlo hhi ((c - b).toNat + 1) (by rw [hcast])
    rw [hstate, hcast]
    unfold PrioritySequence.Next
    have hcond : c ≠ 0 ∧ b + (c - b + 1) > c := ⟨hc, by linarith⟩
    simp [hcond, Except.isOk, Except.toBool]

/-- C3 amended, witnessed on the DirCreate band `[50, 99]`: the first fifty
calls return 50..99 and the fifty-first fails. -/
theorem prioritySequence_band_exhaustion_witness :
    (∀ i : Nat, (i : Int) ≤ (99 : Int) - 50 →
        (iterNext { current := 50, max := 99 } i).Next.2 = Except.ok (50 + i)) ∧
    ((iterNext { current := 50, max := 99 } (((99 : Int) - 50).toNat + 1)).Next.2).isOk = false :=
  prioritySequence_band_exhaustion 50 99 (by decide) (by decide) (by decide) (by decide)

end Scbake

namespace Scbake

/-- `ensureTempDir` changes neither the root nor the journal. -/
theorem ensureTempDir_ok (env : Env) (m m1 : Manager) (fs fs1 : Fs)
    (h : m.ensureTempDir env fs = Except.ok (m1, fs1)) :
    m1.rootPath = m.rootPath ∧ m1.backups = m.backups ∧ m1.created = m.created := by
  unfold Manager.ensureTempDir at h
  split at h
  · injection h with h2
    injection h2 with ha hb
    subst ha
    exact ⟨rfl, rfl, rfl⟩
  · split at h
    · exact Except.noConfusion h
    · injection h with h2
      injection h2 with ha hb
      subst ha
      exact ⟨rfl, rfl, rfl⟩

/-- A successful `backupFile` keeps the root and records the path among the
backups, so it counts as already tracked afterwards. -/
theorem backupFile_ok (env : Env) (m m' : Manager) (fs fs' : Fs)
    (absPath : String) (mode : Nat)
    (h : m.backupFile env fs absPath mode = (m', fs', Except.ok ())) :
    m'.rootPath = m.rootPath ∧ m'.alreadyTracked absPath = true := by
  unfold Manager.backupFile at h
  split at h
  · injection h with h1 h2
    injection h2 with h3 h4
    exact Except.noConfusion h4
  · rename_i m1fs1 m1 fs1 heq
    split at h
    · injection h with h1 h2
      injection h2 with h3 h4
      exact Except.noConfusion h4
    · injection h with h1 h2
      obtain ⟨hroot, _, _⟩ := ensureTempDir_ok env m m1 fs fs1 heq
      constructor
      · rw [← h1]
        exact hroot
      · rw [← h1]
        unfold Manager.alreadyTracked
        simp

end Scbake

namespace Scbake

/-- C7: duplicate tracking is a no-op. If `Track p` succeeded, a second
`Track p` on the resulting state returns success and leaves the manager
journal, the temp-dir and the whole filesystem (hence the backup copies)
exactly as they were: the same observable effect as calling `Track p` once. -/
theorem track_idempotent (env : Env) (m : Manager) (fs : Fs) (p : String)
    (m' : Manager) (fs' : Fs)
    (h : m.Track env fs p = (m', fs', Except.ok ())) :
    m'.Track env fs' p = (m', fs', Except.ok ()) := by
  unfold Manager.Track at h
  split at h
  · rename_i x e heq
    have h4 : (Except.error e : Except String Unit) = Except.ok () :=
      congrArg (fun t => t.2.2) h
    exact Except.noConfusion h4
  · rename_i x absPath heq
    split at h
    · rename_i hat
      have hm : m = m' := congrArg (fun t => t.1) h
      have hfs : fs = fs' := congrArg (fun t => t.2.1) h
      subst hm; subst hfs
      unfold Manager.Track
      rw [heq]
      simp [hat]
    · rename_i hat
      split at h
      · rename_i hst
        have hm : { m with created := m.created ++ [absPath] } = m' :=
          congrArg (fun t => t.1) h
        have hfs : fs = fs' := congrArg (fun t => t.2.1) h
        subst hm; subst hfs
        unfold Manager.Track
        have hroot : Manager.rootPath { m with created := m.created ++ [absPath] } = m.rootPath := rfl
        rw [hroot, heq]
        have hat2 : Manager.alreadyTracked { m with created := m.created ++ [absPath] } absPath = true := by
          unfold Manager.alreadyTracked
          simp
        simp [hat2]
      · rename_i hst
        have hm : m = m' := congrArg (fun t => t.1) h
        have hfs : fs = fs' := congrArg (fun t => t.2.1) h
        subst hm; subst hfs
        unfold Manager.Track
        rw [heq]
        simp [hat, hst]
      · rename_i d mode hst
        obtain ⟨hroot, hat2⟩ := backupFile_ok env m m' fs fs' absPath mode h
        unfold Manager.Track
        rw [hroot, heq]
        simp [hat2]

/-- C7 witnessed: after tracking the fresh path `/r/f` once, the duplicate
call returns success with the journal and disk untouched. -/
theorem track_idempotent_witness :
    Manager.Track { rootPath := "/r", tempDir := "", backups := [], created := ["/r/f"] }
        exEnv exFs0 "/r/f" =
      ({ rootPath := "/r", tempDir := "", backups := [], created := ["/r/f"] }, exFs0,
        Except.ok ()) :=
  track_idempotent exEnv exM0 exFs0 "/r/f"
    { rootPath := "/r", tempDir := "", backups := [], created := ["/r/f"] } exFs0 (by decide)

end Scbake

namespace Scbake

/-- The path-confinement predicate the claim quantifies: the form of `p`
relative to `root` does not begin with "..". -/
def confinementOK (root p : String) : Bool :=
  ! strHasPref (goRel root p) ".."

/-- Invariant: every journal entry — backed-up original or created path —
satisfies confinement with respect to the manager's root. -/
def journalOK (m : Manager) : Bool :=
  m.backups.all (fun e => confinementOK m.rootPath e.1) &&
    m.created.all (fun q => confinementOK m.rootPath q)

/-- A successful validation pins the absolute path and rules out escape. -/
theorem resolveAndValidate_ok (root : String) (env : Env) (p a : String)
    (h : resolveAndValidate root env p = Except.ok a) :
    strHasPref (goRel root (goAbs env.cwd p)) ".." = false ∧ a = goAbs env.cwd p := by
  unfold resolveAndValidate at h
  split at h
  · exact Except.noConfusion h
  · rename_i hcond
    constructor
    · by_contra hc
      simp only [Bool.not_eq_false] at hc
      exact hcond (Or.inl hc)
    · injection h with h1
      exact h1.symm

/-- An escaping path makes validation fail. -/
theorem resolveAndValidate_escape (root : String) (env : Env) (p : String)
    (h : strHasPref (goRel root (goAbs env.cwd p)) ".." = true) :
    resolveAndValidate root env p =
      Except.error ("security violation: attempting to track path '" ++ goAbs env.cwd p ++
        "' outside project root '" ++ root ++ "'") := by
  unfold resolveAndValidate
  rw [if_pos (Or.inl h)]

/-- `backupFile` preserves the journal invariant when the new path is
confined. -/
theorem journalOK_backupFile (env : Env) (m : Manager) (fs : Fs)
    (absPath : String) (mode : Nat)
    (hm : journalOK m = true) (hp : confinementOK m.rootPath absPath = true) :
    journalOK (m.backupFile env fs absPath mode).1 = true := by
  unfold Manager.backupFile
  split
  · exact hm
  · rename_i m1fs1 m1 fs1 heq
    obtain ⟨hroot, hback, hcre⟩ := ensureTempDir_ok env m m1 fs fs1 heq
    have hm1 : journalOK m1 = true := by
      unfold journalOK at hm ⊢
      rw [hroot, hback, hcre]
      exact hm
    split
    · exact hm1
    · unfold journalOK at hm1 ⊢
      simp only [Bool.and_eq_true, List.all_append, List.all_cons, List.all_nil] at hm1 ⊢
      refine ⟨⟨hm1.1, ?_, trivial⟩, hm1.2⟩
      show confinementOK m1.rootPath absPath = true
      rw [hroot]
      exact hp

/-- C8: every path recorded in the journal is confined to the root. `Track`
rejects — with a confinement-violation error and an unchanged journal — every
path whose form relative to `root_path` begins with the up-directory
component, and consequently preserves the invariant that no journal entry's
relative form begins with "..". -/
theorem track_confinement (env : Env) (m : Manager) (fs : Fs) (p : String)
    (hm : journalOK m = true) :
    journalOK (m.Track env fs p).1 = true ∧
    (strHasPref (goRel m.rootPath (goAbs env.cwd p)) ".." = true →
      (m.Track env fs p).1 = m ∧ ∃ e, (m.Track env fs p).2.2 = Except.error e) := by
  unfold Manager.Track
  cases hrv : resolveAndValidate m.rootPath env p with
  | error e =>
    exact ⟨hm, fun _ => ⟨rfl, ⟨e, rfl⟩⟩⟩
  | ok absPath =>
    obtain ⟨hesc, habs⟩ := resolveAndValidate_ok m.rootPath env p absPath hrv
    constructor
    · by_cases hat : m.alreadyTracked absPath = true
      · simpa [hat] using hm
      · simp only [Bool.not_eq_true] at hat
        have hconf : confinementOK m.rootPath absPath = true := by
          unfold confinementOK
          rw [habs, hesc]
          rfl
        cases hst : statFs fs absPath with
        | none =>
          simp only [hat, Bool.false_eq_true, if_false, hst]
          unfold journalOK at hm ⊢
          simp only [Bool.and_eq_true, List.all_append, List.all_cons, List.all_nil] at hm ⊢
          exact ⟨hm.1, hm.2, by simpa using hconf, trivial⟩
        | some n =>
          cases n with
          | dir => simpa [hat, hst] using hm
          | file d mode =>
            simp only [hat, Bool.false_eq_true, if_false, hst]
            exact journalOK_backupFile env m fs absPath mode hm hconf
    · intro hescape
      rw [hescape] at hesc
      exact Bool.noConfusion hesc

/-- C8 witnessed: with an empty (hence confined) journal, tracking the
escaping path `/outside` from root `/r` is rejected with an error, leaves the
manager unchanged, and the invariant still holds. -/
theorem track_confinement_witness :
    journalOK (exM0.Track exEnv exFs0 "/outside").1 = true ∧
    ((exM0.Track exEnv exFs0 "/outside").1 = exM0 ∧
      ∃ e, (exM0.Track exEnv exFs0 "/outside").2.2 = Except.error e) :=
  ⟨(track_confinement exEnv exM0 exFs0 "/outside" (by decide)).1,
    (track_confinement exEnv exM0 exFs0 "/outside" (by decide)).2 (by decide)⟩

/-- Reading back a just-written file yields its content and mode. -/
theorem statFs_writeFile (p d : String) (md : Nat) (fs : Fs) :
    statFs (writeFile p d md fs) p = some (FNode.file d md) := by
  unfold statFs writeFile fsInsert
  simp

/-- C9: the overwrite policy of `CreateTemplateTask.Execute`. With dry-run
off and the earlier pipeline stages succeeding (template readable and
parseable, path check passed, containing directory created), the task fails
with the "already exists" error exactly when the final path exists and
`force` is off; when `force` is set or the path is absent (and the path is
not an existing directory, where file creation itself fails), it succeeds and
the rendered output is on disk at the final path, overwriting any previous
file. -/
theorem template_overwrite_policy
    (lib : TplLib) (t : CreateTemplateTask) (tc : TaskContext) (w : World)
    (content : String) (fs1 : Fs)
    (hdry : tc.dryRun = false)
    (hread : readEmbedded t.templateFS t.templatePath = some content)
    (hparse : lib.parseOk content = true)
    (hpre : strHasPref (goJoin tc.targetPath (goClean t.outputPath)) tc.targetPath = true)
    (hmk : mkdirAll (joinComps true
        ((splitPath (goJoin tc.targetPath (goClean t.outputPath))).dropLast)) w.fs =
      Except.ok fs1) :
    ((t.Execute lib tc w).2 =
        Except.error (TplErr.preexists (goJoin tc.targetPath (goClean t.outputPath))) ↔
      (statFs fs1 (goJoin tc.targetPath (goClean t.outputPath))).isSome = true ∧
        tc.force = false) ∧
    ((tc.force = true ∨ statFs fs1 (goJoin tc.targetPath (goClean t.outputPath)) = none) →
      statFs fs1 (goJoin tc.targetPath (goClean t.outputPath)) ≠ some FNode.dir →
      (t.Execute lib tc w).2 = Except.ok () ∧
        statFs (t.Execute lib tc w).1.fs (goJoin tc.targetPath (goClean t.outputPath)) =
          some (FNode.file (lib.render content tc.manifest) 438)) := by
  unfold CreateTemplateTask.Execute checkFilePreconditions osCreate
  rw [hdry, hread]
  by_cases hforce : tc.force = true
  · cases hstat : statFs fs1 (goJoin tc.targetPath (goClean t.outputPath)) with
    | none => simp [hparse, hpre, hmk, hforce, hstat, statFs_writeFile]
    | some n =>
      cases n with
      | dir => simp [hparse, hpre, hmk, hforce, hstat]
      | file d0 md0 => simp [hparse, hpre, hmk, hforce, hstat, statFs_writeFile]
  · simp only [Bool.not_eq_true] at hforce
    cases hstat : statFs fs1 (goJoin tc.targetPath (goClean t.outputPath)) with
    | none => simp [hparse, hpre, hmk, hforce, hstat, statFs_writeFile]
    | some n => simp [hparse, hpre, hmk, hforce, hstat]

/-- C9 witnessed: with `--force` set and `/r/out.txt` pre-existing, the task
succeeds and the rendered content overwrites the old file. -/
theorem template_overwrite_policy_witness :
    (exTplOk.Execute exLib exTcForce exWPre).2 = Except.ok () ∧
    statFs (exTplOk.Execute exLib exTcForce exWPre).1.fs
        (goJoin exTcForce.targetPath (goClean exTplOk.outputPath)) =
      some (FNode.file (exLib.render "hello" exTcForce.manifest) 438) :=
  (template_overwrite_policy exLib exTplOk exTcForce exWPre "hello" exWPre.fs
    (by decide) (by decide) (by decide) (by decide) (by decide)).2
    (Or.inl (by decide)) (by decide)

/-- Inserting into the sorted suffix permutes to consing. -/
theorem insertT_perm (x : GTask) (l : List GTask) : List.Perm (insertT x l) (x :: l) := by
  induction l with
  | nil => simp [insertT]
  | cons y ys ih =>
    unfold insertT
    by_cases hc : x.prio ≤ y.prio
    · simp [hc]
    · simp only [hc, if_false]
      exact (ih.cons y).trans (List.Perm.swap x y ys)

/-- Insertion preserves sortedness by priority. -/
theorem insertT_pairwise (x : GTask) (l : List GTask)
    (h : l.Pairwise (fun a b => a.prio ≤ b.prio)) :
    (insertT x l).Pairwise (fun a b => a.prio ≤ b.prio) := by
  induction l with
  | nil => simp [insertT]
  | cons y ys ih =>
    rcases List.pairwise_cons.mp h with ⟨hy, hys⟩
    unfold insertT
    by_cases hc : x.prio ≤ y.prio
    · simp only [hc, if_true]
      refine List.Pairwise.cons ?_ h
      intro z hz
      rcases List.mem_cons.mp hz with rfl | hz2
      · exact hc
      · exact le_trans hc (hy z hz2)
    · simp only [hc, if_false]
      refine List.Pairwise.cons ?_ (ih hys)
      intro z hz
      rcases List.mem_cons.mp ((insertT_perm x ys).mem_iff.mp hz) with rfl | hz2
      · exact le_of_lt (lt_of_not_le hc)
      · exact hy z hz2

/-- Insertion is stable: the elements of any one priority class keep their
relative order, with `x` (the earliest-inserted element) in front of its
class. -/
theorem insertT_filter (x : GTask) (l : List GTask) (k : Int) :
    (insertT x l).filter (fun t => t.prio == k) =
      if x.prio == k then x :: l.filter (fun t => t.prio == k)
      else l.filter (fun t => t.prio == k) := by
  induction l with
  | nil =>
    by_cases hk : (x.prio == k) = true
    · simp [insertT, List.filter, hk]
    · simp only [Bool.not_eq_true] at hk
      simp [insertT, List.filter, hk]
  | cons y ys ih =>
    unfold insertT
    by_cases hc : x.prio ≤ y.prio
    · by_cases hk : (x.prio == k) = true
      · simp [hc, hk, List.filter_cons]
      · simp only [Bool.not_eq_true] at hk
        simp [hc, hk, List.filter_cons]
    · simp only [hc, if_false]
      by_cases hk : (x.prio == k) = true
      · have hxk : x.prio = k := by
          exact beq_iff_eq.mp hk
        have hyk : (y.prio == k) = false := by
          have hlt : y.prio < x.prio := lt_of_not_le hc
          rw [hxk] at hlt
          simp [beq_iff_eq]
          exact ne_of_lt hlt
        simp [List.filter_cons, hk, hyk, ih]
      · simp only [Bool.not_eq_true] at hk
        simp [List.filter_cons, hk, ih]

/-- The engine's sort permutes the plan. -/
theorem sortTasks_perm (l : List GTask) : List.Perm (sortTasks l) l := by
  induction l with
  | nil => simp [sortTasks]
  | cons x xs ih =>
    exact (insertT_perm x (sortTasks xs)).trans (ih.cons x)

/-- The engine's sort yields non-decreasing priorities. -/
theorem sortTasks_pairwise (l : List GTask) :
    (sortTasks l).Pairwise (fun a b => a.prio ≤ b.prio) := by
  induction l with
  | nil => simp [sortTasks]
  | cons x xs ih => exact insertT_pairwise x (sortTasks xs) ih

/-- The engine's sort is stable: each priority class appears in insertion
order. -/
theorem sortTasks_filter (l : List GTask) (k : Int) :
    (sortTasks l).filter (fun t => t.prio == k) = l.filter (fun t => t.prio == k) := by
  induction l with
  | nil => rfl
  | cons x xs ih =>
    show (insertT x (sortTasks xs)).filter (fun t => t.prio == k) = _
    rw [insertT_filter, List.filter_cons]
    by_cases hk : (x.prio == k) = true
    · simp [hk, ih]
    · simp only [Bool.not_eq_true] at hk
      simp [hk, ih]

/-- C10: `Execute` leaves the caller's plan stably sorted in place before any
task runs: the observed plan afterwards is exactly the stable sort of the
input — a permutation with non-decreasing priorities whose equal-priority
classes keep insertion order — and this holds for every context and world,
hence also under dry-run and under task failure. -/
theorem execute_sorts_plan_stably (plan : List GTask) (tc : TaskContext) (w : World) :
    (Execute plan tc w).1 = sortTasks plan ∧
    ((Execute plan tc w).1).Pairwise (fun a b => a.prio ≤ b.prio) ∧
    List.Perm ((Execute plan tc w).1) plan ∧
    (∀ k : Int, ((Execute plan tc w).1).filter (fun t => t.prio == k) =
      plan.filter (fun t => t.prio == k)) ∧
    (∀ (tc' : TaskContext) (w' : World), (Execute plan tc' w').1 = (Execute plan tc w).1) :=
  ⟨rfl, sortTasks_pairwise plan, sortTasks_perm plan,
    fun k => sortTasks_filter plan k, fun _ _ => rfl⟩

end Scbake
